import Mathlib

/-!
# Verification of the ultrasound phased-array focusing engine

Shallow embedding of the core computational functions of the
`dwhswenson/ultrasound` repository (the `learn-ultrasound-focusing`
application, `src/main.ts`, and the `ArrayElement` class of
`src/arrayElement.ts`), together with proofs of the testable properties
stated in the specification.

Modelling conventions:
* JavaScript numbers are modelled as rationals (`ℚ`) for the purely
  arithmetic functions (validator, array builder, element drawing, movie
  frame schedule) and as reals (`ℝ`) for the functions involving
  `Math.sqrt` / `Math.sin` (point-target delays, interference evaluator).
  All concrete inputs appearing in the claims are small integers or short
  decimal fractions, hence exactly representable.
* The special value `NaN` matters for the validator (every comparison
  against `NaN` is false in JavaScript), so the validator is embedded over
  a type `JSNum` that adjoins `nan` to `ℚ` with the JavaScript comparison
  semantics.
* Functions reading the mutable `speedOfSoundInput` DOM field via
  `getSpeedOfSound()` take the resulting speed as an explicit parameter.
-/

/-- A JavaScript number as consumed by `validateTargetPoint`: either an
ordinary (finite) number, modelled as a rational, or `NaN`.  Infinities do
not arise in the validator's data flow and are not modelled. -/
inductive JSNum where
  | num (val : ℚ)
  | nan
deriving DecidableEq

/-- JavaScript `a < b`: false whenever either operand is `NaN`. -/
def JSNum.lt : JSNum → JSNum → Bool
  | .num a, .num b => decide (a < b)
  | _, _ => false

/-- JavaScript `a > b`: false whenever either operand is `NaN`. -/
def JSNum.gt : JSNum → JSNum → Bool
  | .num a, .num b => decide (b < a)
  | _, _ => false

/-- JavaScript subtraction: `NaN` is absorbing. -/
def JSNum.sub : JSNum → JSNum → JSNum
  | .num a, .num b => .num (a - b)
  | _, _ => .nan

/-- JavaScript `Math.abs`: maps `NaN` to `NaN`. -/
def JSNum.abs : JSNum → JSNum
  | .num a => .num |a|
  | .nan => .nan

/-- The result record of `validateTargetPoint`:
`{ isValid: boolean; errorMessage?: string }`. -/
structure ValidationResult where
  isValid : Bool
  errorMessage : Option String
deriving DecidableEq

/-- The interpolated template string of the edge-margin rejection
(with `margin = 50` substituted). -/
def edgeMessage : String := "Target must be at least 50px from canvas edges"

/-- The interpolated template string of the array-standoff rejection
(with `minDistance = 100` substituted). -/
def standoffMessage : String := "Target must be at least 100px from array elements"

/-- The rejection message of the forward-half-space check. -/
def forwardMessage : String :=
  "Target must be in front of (to the right of) array elements"

/-- Embedding of `validateTargetPoint` (`main.ts`, lines 328–370).
Checks are performed in source order: canvas-edge margin (50 px), minimum
standoff from the array (100 px), then the forward-half-space constraint;
the first failing check's message is returned.  The function is total
(the source never throws). -/
def validateTargetPoint (targetX targetY canvasWidth canvasHeight elementX : JSNum) :
    ValidationResult :=
  let margin : JSNum := .num 50
  if targetX.lt margin || targetX.gt (canvasWidth.sub margin) ||
      targetY.lt margin || targetY.gt (canvasHeight.sub margin) then
    { isValid := false, errorMessage := some edgeMessage }
  else
    let minDistance : JSNum := .num 100
    let distanceFromArray := (targetX.sub elementX).abs
    if distanceFromArray.lt minDistance then
      { isValid := false, errorMessage := some standoffMessage }
    else if targetX.lt elementX then
      { isValid := false, errorMessage := some forwardMessage }
    else
      { isValid := true, errorMessage := none }

/-- One transducer element (the `ArrayElement` class of `arrayElement.ts`),
generic in the number type (`ℚ` for the arithmetic-only drawing and layout
code, `ℝ` for the interference evaluator).  The TS constructor defaults
`radius = 10` and `lineLength = 200`; call sites relying on those defaults
pass them explicitly here. -/
structure ArrayElement (α : Type) where
  x : α
  y : α
  delay : α
  radius : α
  lineLength : α
deriving DecidableEq

/-- The module-local constant `VISUAL_SPEED_PX_PER_SEC` of
`arrayElement.ts` (200 px/s — distinct from the 150 px/s constant of
`shared/constants.ts`, which `ArrayElement.draw` does not use). -/
def VISUAL_SPEED_PX_PER_SEC : ℚ := 200

/-- Start time of the Phase-A pre-fire pulse in `ArrayElement.draw`:
`startTime = delay − travelTime` where
`travelTime = (lineLength − radius) / visualSpeed`. -/
def pulseStartTime (delay lineLength radius visualSpeed : ℚ) : ℚ :=
  delay - (lineLength - radius) / visualSpeed

/-- Position of the Phase-A pulse at time `t`:
`pulseX = xStart + visualSpeed × (t − startTime)` with
`xStart = x − lineLength`. -/
def pulsePosition (x lineLength visualSpeed t startTime : ℚ) : ℚ :=
  (x - lineLength) + visualSpeed * (t - startTime)

/-- The time-dependent drawing output of `ArrayElement.draw`: the red
Phase-A pulse (its x-position, when drawn) and the Phase-B expanding
wavefront arc (its radius, when drawn).  The element marker circle and the
trigger line are drawn unconditionally and carry no time-dependent data,
so they are not recorded. -/
structure DrawResult where
  pulse : Option ℚ
  wavefront : Option ℚ
deriving DecidableEq

/-- Embedding of the animation phases of `ArrayElement.draw`
(`arrayElement.ts`, lines 53–87).  Phase A (`t < delay`): the pulse is
drawn only if it has started (`t ≥ startTime`) and its position lies on
the visible wire segment.  Phase B (`t ≥ delay`): the wavefront arc of
radius `visualSpeed × (t − delay)` is drawn only when that radius is
strictly positive. -/
def ArrayElement.draw (e : ArrayElement ℚ) (t : ℚ) : DrawResult :=
  let visualSpeedPx := VISUAL_SPEED_PX_PER_SEC
  if t < e.delay then
    let startTime := pulseStartTime e.delay e.lineLength e.radius visualSpeedPx
    if startTime ≤ t then
      let pulseX := pulsePosition e.x e.lineLength visualSpeedPx t startTime
      if e.x - e.lineLength ≤ pulseX ∧ pulseX ≤ e.x - e.radius then
        { pulse := some pulseX, wavefront := none }
      else
        { pulse := none, wavefront := none }
    else
      { pulse := none, wavefront := none }
  else
    let timeSinceEmission := t - e.delay
    let waveRadius := visualSpeedPx * timeSinceEmission
    if 0 < waveRadius then
      { pulse := none, wavefront := some waveRadius }
    else
      { pulse := none, wavefront := none }

/-- `APP_FRAME_RATE` from `shared/constants.ts`. -/
def APP_FRAME_RATE : ℚ := 30

/-- `DEFAULT_ELEMENT_RADIUS` from `shared/constants.ts`. -/
def DEFAULT_ELEMENT_RADIUS : ℚ := 10

/-- `DEFAULT_LINE_LENGTH` from `shared/constants.ts`. -/
def DEFAULT_LINE_LENGTH : ℚ := 200

/-- The per-element delay extracted from the `delays: number | number[]`
parameter of `createElementArray`: a scalar is broadcast, an array is
indexed (`delays[i]`).  A JS out-of-range read would yield `undefined`;
that case is outside the caller contract stated in the spec, is exercised
by no claim, and is given the value 0 here. -/
def delayAt (delays : ℚ ⊕ List ℚ) (i : ℕ) : ℚ :=
  match delays with
  | .inl d => d
  | .inr ds => ds.getD i 0

/-- Embedding of `createElementArray` (`main.ts`, lines 399–421).  The
canvas element is replaced by its width and height.  The JS loop
`for (let i = 0; i < numElements; i++)` iterates exactly over the naturals
`i` with `(i : ℚ) < numElements`, i.e. over `List.range ⌈numElements⌉.toNat`
(see `range_models_counting_loop`). -/
def createElementArray (numElements pitch : ℚ) (delays : ℚ ⊕ List ℚ)
    (canvasWidth canvasHeight : ℚ) : List (ArrayElement ℚ) :=
  let totalHeight := (numElements - 1) * pitch
  let startY := (canvasHeight - totalHeight) / 2
  let elementX := canvasWidth * 0.4
  (List.range (Int.toNat ⌈numElements⌉)).map fun (i : ℕ) =>
    { x := elementX
      y := startY + (i : ℚ) * pitch
      delay := delayAt delays i
      radius := 10
      lineLength := 200 }

/-- A dummy element used as the default of out-of-range `List.getD` reads
in statements (never actually read, since every index is bounded). -/
def dummyElement : ArrayElement ℚ := ⟨0, 0, 0, 0, 0⟩

/-- The linear-mode delay computed in the linear branch of `generateMovie`
(`main.ts`, line 487): `(lineLength − radius) / visualSpeed`. -/
def linearDelay (lineLength radius visualSpeed : ℚ) : ℚ :=
  (lineLength - radius) / visualSpeed

/-- The frame-time schedule of `generateMovie` (`main.ts`, lines 439 and
493–494): `totalFrames = Math.ceil(movieDuration × APP_FRAME_RATE)` frames,
frame `i` at `(i / (totalFrames − 1)) × movieDuration`.  When
`totalFrames = 1`, JS evaluates `0/0` to `NaN`; `ℚ` division gives `0/0 = 0`
instead — the only divergence, noted where it matters. -/
def generateMovieFrameTimes (movieDuration : ℚ) : List ℚ :=
  let frameRate := APP_FRAME_RATE
  let totalFrames : ℕ := (⌈movieDuration * frameRate⌉).toNat
  (List.range totalFrames).map fun (i : ℕ) =>
    ((i : ℚ) / ((totalFrames : ℚ) - 1)) * movieDuration

/-- The `{x, y}` position records passed to `calculatePointTargetDelays`. -/
structure ElementPosition where
  x : ℝ
  y : ℝ

/-- `Math.sqrt((targetX − pos.x)² + (targetY − pos.y)²)` as computed in
`calculatePointTargetDelays` (`main.ts`, lines 384–386). -/
noncomputable def distanceToTarget (pos : ElementPosition) (targetX targetY : ℝ) : ℝ :=
  Real.sqrt ((targetX - pos.x) ^ 2 + (targetY - pos.y) ^ 2)

/-- JS `Math.max(...xs)` on a nonempty spread argument list.  The empty
case yields `-Infinity` in JS; it is unreachable under the claims'
nonemptiness hypothesis and is mapped to 0. -/
noncomputable def spreadMax : List ℝ → ℝ
  | [] => 0
  | x :: xs => xs.foldl max x

/-- Embedding of `calculatePointTargetDelays` (`main.ts`, lines 376–393).
The source reads the speed from the DOM via `getSpeedOfSound()`; that
value is taken as the explicit parameter `visualSpeed`. -/
noncomputable def calculatePointTargetDelays (elementPositions : List ElementPosition)
    (targetX targetY visualSpeed : ℝ) : List ℝ :=
  let distances := elementPositions.map fun pos => distanceToTarget pos targetX targetY
  let maxDistance := spreadMax distances
  distances.map fun distance => (maxDistance - distance) / visualSpeed

/-- `Math.sqrt((targetX − element.x)² + (targetY − element.y)²)` as
computed in `calculateWaveAmplitudeAtTarget` (`main.ts`, lines 302–304). -/
noncomputable def waveDistance (e : ArrayElement ℝ) (targetX targetY : ℝ) : ℝ :=
  Real.sqrt ((targetX - e.x) ^ 2 + (targetY - e.y) ^ 2)

/-- An element contributes to the amplitude at `(targetX, targetY)` at time
`currentTime` when it has fired (`¬ currentTime < delay`) and its wave has
reached the target (`timeSinceFiring ≥ travelTime`) — the two guard
conditions of the `forEach` body of `calculateWaveAmplitudeAtTarget`. -/
def contributes (targetX targetY currentTime visualSpeed : ℝ) (e : ArrayElement ℝ) : Prop :=
  e.delay ≤ currentTime ∧
    waveDistance e targetX targetY / visualSpeed ≤ currentTime - e.delay

/-- The per-element amplitude contribution
`Math.sin((timeSinceFiring − travelTime) × 2π × 5) × 0.5 + 0.5`
(`main.ts`, lines 313–314). -/
noncomputable def waveValue (targetX targetY currentTime visualSpeed : ℝ)
    (e : ArrayElement ℝ) : ℝ :=
  Real.sin (((currentTime - e.delay) - waveDistance e targetX targetY / visualSpeed)
      * 2 * Real.pi * 5) * 0.5 + 0.5

open Classical in
/-- One step of the `forEach` accumulation in
`calculateWaveAmplitudeAtTarget`: the running pair is
`(totalAmplitude, waveCount)`. -/
noncomputable def amplitudeStep (targetX targetY currentTime visualSpeed : ℝ)
    (acc : ℝ × ℕ) (e : ArrayElement ℝ) : ℝ × ℕ :=
  if currentTime < e.delay then acc
  else
    let timeSinceFiring := currentTime - e.delay
    let distance := waveDistance e targetX targetY
    let travelTime := distance / visualSpeed
    if travelTime ≤ timeSinceFiring then
      (acc.1 + (Real.sin ((timeSinceFiring - travelTime) * 2 * Real.pi * 5) * 0.5 + 0.5),
        acc.2 + 1)
    else acc

/-- Embedding of `calculateWaveAmplitudeAtTarget` (`main.ts`, lines
284–322).  The DOM-read speed (`getSpeedOfSound()`) is the explicit
parameter `visualSpeed`; the final line models
`waveCount > 0 ? totalAmplitude / waveCount : 0`. -/
noncomputable def calculateWaveAmplitudeAtTarget (elements : List (ArrayElement ℝ))
    (targetX targetY currentTime visualSpeed : ℝ) : ℝ :=
  let r := elements.foldl (amplitudeStep targetX targetY currentTime visualSpeed) (0, 0)
  if 0 < r.2 then r.1 / (r.2 : ℝ) else 0

open Classical in
/-- The sublist of elements whose waves have reached the target — the
elements counted by `waveCount`. -/
noncomputable def contributingElements (elements : List (ArrayElement ℝ))
    (targetX targetY currentTime visualSpeed : ℝ) : List (ArrayElement ℝ) :=
  elements.filter fun e => decide (contributes targetX targetY currentTime visualSpeed e)

/-- The focusing guarantees of the point-mode delay calculator for a given
element set, target and speed: the returned list has one delay per
element; each delay follows the `(maxDistance − distance) / speed` formula;
`delay + distance / speed` has the common value `maxDistance / speed`; some
farthest element exists and receives delay 0; delays are anti-monotone in
distance (the nearest element's delay is largest); and every delay is
non-negative. -/
def pointDelaysCorrect (elementPositions : List ElementPosition)
    (targetX targetY visualSpeed : ℝ) : Prop :=
  let distances := elementPositions.map fun pos => distanceToTarget pos targetX targetY
  let maxDistance := spreadMax distances
  let delays := calculatePointTargetDelays elementPositions targetX targetY visualSpeed
  delays.length = elementPositions.length ∧
  (∀ i : ℕ, i < elementPositions.length →
    delays.getD i 0 = (maxDistance - distances.getD i 0) / visualSpeed) ∧
  (∀ i : ℕ, i < elementPositions.length →
    delays.getD i 0 + distances.getD i 0 / visualSpeed = maxDistance / visualSpeed) ∧
  (∃ i : ℕ, i < elementPositions.length ∧
    distances.getD i 0 = maxDistance ∧ delays.getD i 0 = 0) ∧
  (∀ i j : ℕ, i < elementPositions.length → j < elementPositions.length →
    distances.getD i 0 ≤ distances.getD j 0 → delays.getD j 0 ≤ delays.getD i 0) ∧
  (∀ i : ℕ, i < elementPositions.length → 0 ≤ delays.getD i 0)

/-- The contract of the interference evaluator for given inputs: the result
is exactly 0 when no element's wave has arrived, is the average of the
per-element sinusoidal values over the contributing elements when at least
one wave has arrived, each per-element value lies in `[0, 1]`, and so does
the result. -/
def amplitudeCorrect (elements : List (ArrayElement ℝ))
    (targetX targetY currentTime visualSpeed : ℝ) : Prop :=
  let r := calculateWaveAmplitudeAtTarget elements targetX targetY currentTime visualSpeed
  let contrib := contributingElements elements targetX targetY currentTime visualSpeed
  ((∀ e ∈ elements, ¬ contributes targetX targetY currentTime visualSpeed e) → r = 0) ∧
  ((∃ e ∈ elements, contributes targetX targetY currentTime visualSpeed e) →
    r = (contrib.map (waveValue targetX targetY currentTime visualSpeed)).sum /
      (contrib.length : ℝ)) ∧
  (∀ e ∈ contrib, 0 ≤ waveValue targetX targetY currentTime visualSpeed e ∧
    waveValue targetX targetY currentTime visualSpeed e ≤ 1) ∧
  0 ≤ r ∧ r ≤ 1

/-- The structural contract of the validator on finite numeric inputs:
success exactly when all three geometric checks pass, and on failure the
reason of the first failing check in the fixed order edges → standoff →
forward half-space. -/
def validatorCorrect (targetX targetY canvasWidth canvasHeight elementX : ℚ) : Prop :=
  let r := validateTargetPoint (.num targetX) (.num targetY) (.num canvasWidth)
    (.num canvasHeight) (.num elementX)
  let edgesOk := 50 ≤ targetX ∧ targetX ≤ canvasWidth - 50 ∧
    50 ≤ targetY ∧ targetY ≤ canvasHeight - 50
  let standoffOk := 100 ≤ |targetX - elementX|
  let forwardOk := elementX ≤ targetX
  (r.isValid = true ↔ edgesOk ∧ standoffOk ∧ forwardOk) ∧
  (¬ edgesOk → r = ⟨false, some edgeMessage⟩) ∧
  (edgesOk → ¬ standoffOk → r = ⟨false, some standoffMessage⟩) ∧
  (edgesOk → standoffOk → ¬ forwardOk → r = ⟨false, some forwardMessage⟩) ∧
  (edgesOk → standoffOk → forwardOk → r = ⟨true, none⟩)

/-- The layout invariant of `createElementArray` for an integer element
count `n`: `n` elements, all at `x = canvasWidth × 0.4`, consecutive `y`
values `pitch` apart, element `i` at
`y = (canvasHeight − (n − 1) × pitch) / 2 + i × pitch`, and the first/last
midpoint at `canvasHeight / 2`. -/
def arrayLayoutCorrect (n : ℕ) (pitch canvasWidth canvasHeight : ℚ)
    (delays : ℚ ⊕ List ℚ) : Prop :=
  let l := createElementArray (n : ℚ) pitch delays canvasWidth canvasHeight
  l.length = n ∧
  (∀ e ∈ l, e.x = canvasWidth * 0.4) ∧
  (∀ i : ℕ, i + 1 < n →
    (l.getD (i + 1) dummyElement).y - (l.getD i dummyElement).y = pitch) ∧
  (∀ i : ℕ, i < n →
    (l.getD i dummyElement).y =
      (canvasHeight - ((n : ℚ) - 1) * pitch) / 2 + (i : ℚ) * pitch) ∧
  ((l.getD 0 dummyElement).y + (l.getD (n - 1) dummyElement).y) / 2 = canvasHeight / 2

/-- The movie frame schedule contract, as it actually holds on the code:
`⌈duration × 30⌉` frames, each at the `(i / (totalFrames − 1)) × duration`
time (under the `ℚ` convention `0/0 = 0`), endpoints `0` and `duration`
whenever at least two frames exist, and the concrete 2.5 s / 75-frame
instance. -/
def frameScheduleCorrect (movieDuration : ℚ) : Prop :=
  let totalFrames : ℕ := (⌈movieDuration * APP_FRAME_RATE⌉).toNat
  let times := generateMovieFrameTimes movieDuration
  times.length = totalFrames ∧
  (∀ i : ℕ, i < totalFrames →
    times.getD i 0 = ((i : ℚ) / ((totalFrames : ℚ) - 1)) * movieDuration) ∧
  (2 ≤ totalFrames →
    times.getD 0 0 = 0 ∧ times.getD (totalFrames - 1) 0 = movieDuration) ∧
  ((generateMovieFrameTimes (5/2)).length = 75 ∧
    (generateMovieFrameTimes (5/2)).getD 0 0 = 0 ∧
    (generateMovieFrameTimes (5/2)).getD 74 0 = 5/2)

/-- The Phase-B contract of `ArrayElement.draw` at a time `t ≥ delay`: the
wavefront arc carries radius `VISUAL_SPEED_PX_PER_SEC × (t − delay)` and is
emitted exactly when that radius is strictly positive; at `t = delay` no
arc is drawn; and the claim's concrete instance (delay 0.001, radius 10,
line length 200, speed 200, `t = 0.0011`) yields radius `0.02 = 1/50`. -/
def drawWavefrontContract (e : ArrayElement ℚ) (t : ℚ) : Prop :=
  (e.draw t).wavefront =
    (if 0 < VISUAL_SPEED_PX_PER_SEC * (t - e.delay) then
      some (VISUAL_SPEED_PX_PER_SEC * (t - e.delay))
    else none) ∧
  (e.draw e.delay).wavefront = none ∧
  ((⟨e.x, e.y, 1/1000, 10, 200⟩ : ArrayElement ℚ).draw (11/10000)).wavefront =
    some (1/50)

/-- The linear-mode delay contract: the delay follows the
`(lineLength − radius) / speed` formula, and for an element animated at
that same speed the pre-fire pulse starts exactly at time 0 and its
position at `t = delay` is exactly the element boundary `x − radius`. -/
def linearDelayContract (lineLength radius x visualSpeed : ℚ) : Prop :=
  linearDelay lineLength radius visualSpeed = (lineLength - radius) / visualSpeed ∧
  pulseStartTime (linearDelay lineLength radius visualSpeed) lineLength radius
    visualSpeed = 0 ∧
  pulsePosition x lineLength visualSpeed (linearDelay lineLength radius visualSpeed)
    (pulseStartTime (linearDelay lineLength radius visualSpeed) lineLength radius
      visualSpeed) = x - radius

/-- What `createElementArray` actually does on a fractional element count:
the bounded loop runs `⌊numElements⌋ + 1` times (one more than the
truncated count), so the result differs from the `⌊numElements⌋` call
already in length. -/
def fractionalCountContract (numElements pitch canvasWidth canvasHeight : ℚ)
    (delays : ℚ ⊕ List ℚ) : Prop :=
  (createElementArray numElements pitch delays canvasWidth canvasHeight).length =
    ⌊numElements⌋.toNat + 1 ∧
  (createElementArray numElements pitch delays canvasWidth canvasHeight).length ≠
    (createElementArray (⌊numElements⌋ : ℚ) pitch delays canvasWidth canvasHeight).length

/-! ## Helper lemmas -/

/-- The counting loop `for (let i = 0; i < numElements; i++)` visits
exactly the naturals below `⌈numElements⌉.toNat`. -/
theorem range_models_counting_loop (i : ℕ) (numElements : ℚ) :
    (i : ℚ) < numElements ↔ i < (⌈numElements⌉).toNat := by
  rw [Int.lt_toNat, Int.lt_ceil]
  push_cast
  rfl

theorem getD_range_map {β : Type} (f : ℕ → β) (n i : ℕ) (hi : i < n) (d : β) :
    ((List.range n).map f).getD i d = f i := by
  rw [List.getD_eq_getElem?_getD, List.getElem?_map, List.getElem?_range hi]
  rfl

theorem le_foldl_max_init (l : List ℝ) (a : ℝ) : a ≤ l.foldl max a := by
  induction l generalizing a with
  | nil => exact le_refl a
  | cons x xs ih => exact le_trans (le_max_left a x) (ih (max a x))

theorem le_foldl_max_of_mem {l : List ℝ} {b : ℝ} (h : b ∈ l) (a : ℝ) :
    b ≤ l.foldl max a := by
  induction l generalizing a with
  | nil => cases h
  | cons x xs ih =>
    rcases List.mem_cons.mp h with hx | hxs
    · subst hx
      exact le_trans (le_max_right a b) (le_foldl_max_init xs (max a b))
    · exact ih hxs (max a x)

theorem foldl_max_eq_init_or_mem (l : List ℝ) (a : ℝ) :
    l.foldl max a = a ∨ l.foldl max a ∈ l := by
  induction l generalizing a with
  | nil => exact Or.inl rfl
  | cons x xs ih =>
    rcases ih (max a x) with h | h
    · rcases max_cases a x with ⟨hm, _⟩ | ⟨hm, _⟩
      · exact Or.inl (by rw [List.foldl_cons, h, hm])
      · exact Or.inr (by rw [List.foldl_cons, h, hm]; exact List.mem_cons_self x xs)
    · exact Or.inr (List.mem_cons_of_mem x h)

theorem le_spreadMax_of_mem {l : List ℝ} {a : ℝ} (h : a ∈ l) : a ≤ spreadMax l := by
  cases l with
  | nil => cases h
  | cons x xs =>
    rcases List.mem_cons.mp h with hx | hxs
    · subst hx
      exact le_foldl_max_init xs a
    · exact le_foldl_max_of_mem hxs x

theorem spreadMax_mem {l : List ℝ} (h : l ≠ []) : spreadMax l ∈ l := by
  cases l with
  | nil => exact absurd rfl h
  | cons x xs =>
    rcases foldl_max_eq_init_or_mem xs x with hx | hxs
    · rw [spreadMax, hx]
      exact List.mem_cons_self x xs
    · exact List.mem_cons_of_mem x hxs

/-- Closed-form evaluation of the validator on finite inputs. -/
theorem validateTargetPoint_num (targetX targetY canvasWidth canvasHeight elementX : ℚ) :
    validateTargetPoint (.num targetX) (.num targetY) (.num canvasWidth)
        (.num canvasHeight) (.num elementX) =
      if targetX < 50 ∨ canvasWidth - 50 < targetX ∨ targetY < 50 ∨
          canvasHeight - 50 < targetY then
        ⟨false, some edgeMessage⟩
      else if |targetX - elementX| < 100 then
        ⟨false, some standoffMessage⟩
      else if targetX < elementX then
        ⟨false, some forwardMessage⟩
      else
        ⟨true, none⟩ := by
  simp only [validateTargetPoint, JSNum.lt, JSNum.gt, JSNum.sub, JSNum.abs,
    Bool.or_eq_true, decide_eq_true_eq]
  rcases em (targetX < 50 ∨ canvasWidth - 50 < targetX ∨ targetY < 50 ∨
      canvasHeight - 50 < targetY) with h | h
  · rw [if_pos (by tauto), if_pos h]
  · rw [if_neg (by tauto), if_neg h]

/-! ## C5 — validator structure -/

/-- C5: on every finite numeric input the validator succeeds exactly when
the edge-margin, standoff and forward-half-space checks all pass, and on
failure returns the first failing check's reason in that fixed priority
order; being a total function, it never throws. -/
theorem validator_structure (targetX targetY canvasWidth canvasHeight elementX : ℚ) :
    validatorCorrect targetX targetY canvasWidth canvasHeight elementX := by
  dsimp only [validatorCorrect]
  rw [validateTargetPoint_num]
  by_cases h1 : targetX < 50 ∨ canvasWidth - 50 < targetX ∨ targetY < 50 ∨
      canvasHeight - 50 < targetY
  · rw [if_pos h1]
    have hne : ¬ (50 ≤ targetX ∧ targetX ≤ canvasWidth - 50 ∧ 50 ≤ targetY ∧
        targetY ≤ canvasHeight - 50) := by
      rintro ⟨a, b, c, d⟩
      rcases h1 with h | h | h | h <;> linarith
    refine ⟨iff_of_false (by simp) (fun hP => hne hP.1), fun _ => rfl,
      fun he => absurd he hne, fun he _ => absurd he hne, fun he _ _ => absurd he hne⟩
  · have he : 50 ≤ targetX ∧ targetX ≤ canvasWidth - 50 ∧ 50 ≤ targetY ∧
        targetY ≤ canvasHeight - 50 := by
      push_neg at h1
      exact ⟨h1.1, h1.2.1, h1.2.2.1, h1.2.2.2⟩
    rw [if_neg h1]
    by_cases h2 : |targetX - elementX| < 100
    · rw [if_pos h2]
      refine ⟨iff_of_false (by simp) (fun hP => absurd hP.2.1 (not_le.mpr h2)),
        fun hn => absurd he hn, fun _ _ => rfl,
        fun _ hs _ => absurd hs (not_le.mpr h2),
        fun _ hs _ => absurd hs (not_le.mpr h2)⟩
    · have hs : 100 ≤ |targetX - elementX| := not_lt.mp h2
      rw [if_neg h2]
      by_cases h3 : targetX < elementX
      · rw [if_pos h3]
        refine ⟨iff_of_false (by simp) (fun hP => absurd hP.2.2 (not_le.mpr h3)),
          fun hn => absurd he hn, fun _ hn => absurd hs hn, fun _ _ _ => rfl,
          fun _ _ hf => absurd hf (not_le.mpr h3)⟩
      · have hf : elementX ≤ targetX := not_lt.mp h3
        rw [if_neg h3]
        refine ⟨iff_of_true rfl ⟨he, hs, hf⟩, fun hn => absurd he hn,
          fun _ hn => absurd hs hn, fun _ _ hn => absurd hf hn, fun _ _ _ => rfl⟩

/-! ## C3 — validator boundary examples -/

/-- C3 counterexample: contrary to the claim, the target (356, 240) on the
640×480 canvas with `arrayX = 256` is *accepted* — it sits at exactly
100 px standoff, and the code rejects only strict `distanceFromArray < 100`. -/
theorem validator_boundary_356_accepted :
    validateTargetPoint (.num 356) (.num 240) (.num 640) (.num 480) (.num 256) =
      { isValid := true, errorMessage := none } := by
  rw [validateTargetPoint_num]
  norm_num

/-- C3 (amended): the boundary examples as the code decides them — (357, 240)
and (356, 240) are accepted (standoff 101 px and exactly 100 px), (355, 240)
is rejected with the too-close-to-array reason, (590, 430) is accepted,
(10, 10) is rejected with the too-close-to-edges reason, and (100, 240)
is rejected with the behind-the-array reason. -/
theorem validator_boundary_examples :
    validateTargetPoint (.num 357) (.num 240) (.num 640) (.num 480) (.num 256) =
      { isValid := true, errorMessage := none } ∧
    validateTargetPoint (.num 356) (.num 240) (.num 640) (.num 480) (.num 256) =
      { isValid := true, errorMessage := none } ∧
    validateTargetPoint (.num 355) (.num 240) (.num 640) (.num 480) (.num 256) =
      { isValid := false, errorMessage := some standoffMessage } ∧
    validateTargetPoint (.num 590) (.num 430) (.num 640) (.num 480) (.num 256) =
      { isValid := true, errorMessage := none } ∧
    validateTargetPoint (.num 10) (.num 10) (.num 640) (.num 480) (.num 256) =
      { isValid := false, errorMessage := some edgeMessage } ∧
    validateTargetPoint (.num 100) (.num 240) (.num 640) (.num 480) (.num 256) =
      { isValid := false, errorMessage := some forwardMessage } := by
  refine ⟨?_, ?_, ?_, ?_, ?_, ?_⟩ <;> rw [validateTargetPoint_num] <;> norm_num

/-! ## C10 — NaN handling in the validator -/

/-- C10 counterexample: with `targetX = NaN` but `targetY = 10`, the
comparison `targetY < margin` is still true, so the validator rejects —
refuting the claim that a `NaN` in either coordinate makes every rejection
comparison false and forces a success result. -/
theorem validator_nan_x_rejected :
    validateTargetPoint .nan (.num 10) (.num 640) (.num 480) (.num 256) =
      { isValid := false, errorMessage := some edgeMessage } := by
  norm_num [validateTargetPoint, JSNum.lt, JSNum.gt, JSNum.sub, JSNum.abs]

/-- C10 (amended): when *both* coordinates are `NaN`, every rejection
comparison evaluates to false — `NaN` compares false against everything and
propagates through subtraction and `Math.abs` — so the validator reports
the target as valid, whatever the canvas dimensions and array position
(even `NaN` ones). -/
theorem validator_nan_nan_accepted (canvasWidth canvasHeight elementX : JSNum) :
    validateTargetPoint .nan .nan canvasWidth canvasHeight elementX =
      { isValid := true, errorMessage := none } := by
  cases canvasWidth <;> cases canvasHeight <;> cases elementX <;>
    simp [validateTargetPoint, JSNum.lt, JSNum.gt, JSNum.sub, JSNum.abs]

/-! ## C4 — element phase boundary -/

/-- C4: whenever `t ≥ delay` the drawn wavefront radius equals
`speed × (t − delay)` and the arc is emitted only when that radius is
strictly positive; at `t = delay` exactly, no arc is drawn; and at
`t = 0.0011` an element with delay 0.001 (radius 10, line length 200,
speed 200) draws radius `200 × 0.0001 = 0.02`. -/
theorem element_phase_boundary (e : ArrayElement ℚ) (t : ℚ) (h : e.delay ≤ t) :
    drawWavefrontContract e t := by
  refine ⟨?_, ?_, ?_⟩
  · simp only [ArrayElement.draw]
    rw [if_neg (not_lt.mpr h)]
    by_cases hr : 0 < VISUAL_SPEED_PX_PER_SEC * (t - e.delay)
    · rw [if_pos hr, if_pos hr]
    · rw [if_neg hr, if_neg hr]
  · simp only [ArrayElement.draw]
    rw [if_neg (lt_irrefl e.delay)]
    simp
  · norm_num [ArrayElement.draw, VISUAL_SPEED_PX_PER_SEC]

/-- Concrete instantiation of `element_phase_boundary` at the claim's own
inputs: delay `0.001 ≤ 0.0011`, so the contract holds for that element at
`t = 0.0011`. -/
theorem element_phase_boundary_witness :
    ((⟨0, 0, 1/1000, 10, 200⟩ : ArrayElement ℚ).delay ≤ (11/10000 : ℚ)) ∧
    drawWavefrontContract ⟨0, 0, 1/1000, 10, 200⟩ (11/10000) :=
  ⟨by norm_num, element_phase_boundary ⟨0, 0, 1/1000, 10, 200⟩ (11/10000) (by norm_num)⟩

/-! ## C6 — array layout -/

theorem createElementArray_length (numElements pitch canvasWidth canvasHeight : ℚ)
    (delays : ℚ ⊕ List ℚ) :
    (createElementArray numElements pitch delays canvasWidth canvasHeight).length =
      (⌈numElements⌉).toNat := by
  simp [createElementArray]

theorem createElementArray_getD (numElements pitch canvasWidth canvasHeight : ℚ)
    (delays : ℚ ⊕ List ℚ) (i : ℕ) (hi : i < (⌈numElements⌉).toNat) :
    (createElementArray numElements pitch delays canvasWidth canvasHeight).getD i
        dummyElement =
      { x := canvasWidth * 0.4
        y := (canvasHeight - (numElements - 1) * pitch) / 2 + (i : ℚ) * pitch
        delay := delayAt delays i
        radius := 10
        lineLength := 200 } :=
  getD_range_map _ _ _ hi _

/-- C6: for every positive integer element count, all elements share
`x = canvasWidth × 0.4`, consecutive `y` values differ by exactly `pitch`,
element `i` sits at `(canvasHeight − (n − 1) × pitch) / 2 + i × pitch`, and
the midpoint of the first and last `y` equals `canvasHeight / 2`. -/
theorem array_layout (n : ℕ) (hn : 0 < n) (pitch canvasWidth canvasHeight : ℚ)
    (delays : ℚ ⊕ List ℚ) :
    arrayLayoutCorrect n pitch canvasWidth canvasHeight delays := by
  have hceil : (⌈(n : ℚ)⌉).toNat = n := by
    rw [Int.ceil_natCast]
    exact Int.toNat_natCast n
  have hget : ∀ i : ℕ, i < n →
      (createElementArray (n : ℚ) pitch delays canvasWidth canvasHeight).getD i
          dummyElement =
        { x := canvasWidth * 0.4
          y := (canvasHeight - ((n : ℚ) - 1) * pitch) / 2 + (i : ℚ) * pitch
          delay := delayAt delays i
          radius := 10
          lineLength := 200 } := by
    intro i hi
    exact createElementArray_getD _ _ _ _ _ i (by rw [hceil]; exact hi)
  dsimp only [arrayLayoutCorrect]
  refine ⟨?_, ?_, ?_, ?_, ?_⟩
  · rw [createElementArray_length, hceil]
  · intro e he
    simp only [createElementArray, List.mem_map] at he
    obtain ⟨i, -, rfl⟩ := he
    rfl
  · intro i hi
    rw [hget (i + 1) hi, hget i (lt_of_le_of_lt (Nat.le_succ i) hi)]
    push_cast
    ring
  · intro i hi
    rw [hget i hi]
  · rw [hget 0 hn, hget (n - 1) (Nat.sub_lt hn one_pos)]
    have hcast : ((n - 1 : ℕ) : ℚ) = (n : ℚ) - 1 := by
      push_cast [Nat.cast_sub hn]
      ring
    dsimp only
    rw [hcast]
    ring

/-- Concrete instantiation of `array_layout` at the spec's example
(6 elements, pitch 50, canvas 640×480, a shared zero delay). -/
theorem array_layout_witness :
    0 < 6 ∧ arrayLayoutCorrect 6 50 640 480 (Sum.inl 0) :=
  ⟨by norm_num, array_layout 6 (by norm_num) 50 640 480 (Sum.inl 0)⟩

/-! ## C9 — fractional element count -/

/-- C9 counterexample: with `numElements = 3.5` the builder yields 4
elements, not the 3 of the truncated call — the two element lists differ. -/
theorem fractional_count_not_floor :
    createElementArray (7/2) 50 (Sum.inl 0) 640 480 ≠
      createElementArray 3 50 (Sum.inl 0) 640 480 := by
  intro h
  have hl := congrArg List.length h
  rw [createElementArray_length, createElementArray_length] at hl
  have h72 : ⌈(7/2 : ℚ)⌉ = 4 := by
    rw [Int.ceil_eq_iff]
    norm_num
  have h3 : ⌈(3 : ℚ)⌉ = 3 := by
    rw [Int.ceil_eq_iff]
    norm_num
  rw [h72, h3] at hl
  omega

/-- C9 (amended): for a non-integer positive element count the bounded loop
runs `⌊numElements⌋ + 1` times, so `createElementArray` returns one element
*more* than the floor-truncated call (the lists differ already in length). -/
theorem fractional_count_truncation (numElements pitch canvasWidth canvasHeight : ℚ)
    (delays : ℚ ⊕ List ℚ) (hpos : 0 < numElements)
    (hfrac : (⌊numElements⌋ : ℚ) ≠ numElements) :
    fractionalCountContract numElements pitch canvasWidth canvasHeight delays := by
  have hlt : (⌊numElements⌋ : ℚ) < numElements :=
    lt_of_le_of_ne (Int.floor_le numElements) hfrac
  have hceil : ⌈numElements⌉ = ⌊numElements⌋ + 1 := by
    rw [Int.ceil_eq_iff]
    refine ⟨?_, ?_⟩
    · push_cast
      linarith
    · push_cast
      linarith [Int.lt_floor_add_one numElements]
  have hfl : 0 ≤ ⌊numElements⌋ := Int.floor_nonneg.mpr hpos.le
  constructor
  · rw [createElementArray_length, hceil]
    omega
  · rw [createElementArray_length, createElementArray_length, hceil, Int.ceil_intCast]
    omega

/-- Concrete instantiation of `fractional_count_truncation` at
`numElements = 3.5`. -/
theorem fractional_count_truncation_witness :
    (0 : ℚ) < 7/2 ∧ (⌊(7/2 : ℚ)⌋ : ℚ) ≠ 7/2 ∧
      fractionalCountContract (7/2) 50 640 480 (Sum.inl 0) := by
  have hf : ⌊(7/2 : ℚ)⌋ = 3 := by
    rw [Int.floor_eq_iff]
    norm_num
  exact ⟨by norm_num, by rw [hf]; norm_num,
    fractional_count_truncation (7/2) 50 640 480 (Sum.inl 0) (by norm_num)
      (by rw [hf]; norm_num)⟩


/-! ## C7 — movie frame schedule -/

theorem generateMovieFrameTimes_length (movieDuration : ℚ) :
    (generateMovieFrameTimes movieDuration).length =
      (⌈movieDuration * APP_FRAME_RATE⌉).toNat := by
  simp only [generateMovieFrameTimes, List.length_map, List.length_range]

theorem generateMovieFrameTimes_getD (movieDuration : ℚ) (i : ℕ)
    (hi : i < (⌈movieDuration * APP_FRAME_RATE⌉).toNat) :
    (generateMovieFrameTimes movieDuration).getD i 0 =
      ((i : ℚ) / (((⌈movieDuration * APP_FRAME_RATE⌉).toNat : ℚ) - 1)) * movieDuration :=
  getD_range_map
    (fun i : ℕ =>
      ((i : ℚ) / (((⌈movieDuration * APP_FRAME_RATE⌉).toNat : ℚ) - 1)) * movieDuration)
    ((⌈movieDuration * APP_FRAME_RATE⌉).toNat) i hi (0 : ℚ)

/-- C7 counterexample: a duration of `1/60` s (at most one frame period)
yields a single frame whose time is *not* the duration — in the `ℚ` model
the `0/0` frame time evaluates to `0` (in JS it is `NaN`); either way it
differs from `1/60`. -/
theorem frame_schedule_single_frame :
    (generateMovieFrameTimes (1/60)).length = 1 ∧
    (generateMovieFrameTimes (1/60)).getLast? ≠ some (1/60) := by
  have h : ⌈(1/60 : ℚ) * APP_FRAME_RATE⌉ = 1 := by
    rw [Int.ceil_eq_iff]
    norm_num [APP_FRAME_RATE]
  have hlen : (generateMovieFrameTimes (1/60)).length = 1 := by
    rw [generateMovieFrameTimes_length, h]
    rfl
  refine ⟨hlen, fun hlast => ?_⟩
  have h0 : (generateMovieFrameTimes (1/60)).getD 0 0 = 0 := by
    rw [generateMovieFrameTimes_getD (1/60) 0 (by rw [h]; norm_num)]
    norm_num
  have hne : generateMovieFrameTimes (1/60) ≠ [] := by
    intro hnil
    rw [hnil] at hlen
    exact absurd hlen (by norm_num)
  rw [List.getLast?_eq_getElem?, hlen] at hlast
  rw [List.getD_eq_getElem?_getD, hlast] at h0
  norm_num at h0

/-- C7 (amended): for every positive duration the movie has exactly
`⌈duration × 30⌉` frames at the stated relative times (under `0/0 = 0`),
and *whenever at least two frames exist* the first frame's time is exactly
0 and the last exactly the duration; in particular the 2.5 s example gives
75 frames with first time 0 and last time 2.5.  The endpoint guarantee
genuinely needs the two-frame hypothesis (see
`frame_schedule_single_frame`). -/
theorem frame_schedule (movieDuration : ℚ) (_hd : 0 < movieDuration) :
    frameScheduleCorrect movieDuration := by
  have h75 : (⌈(5/2 : ℚ) * APP_FRAME_RATE⌉).toNat = 75 := by
    have h : ⌈(5/2 : ℚ) * APP_FRAME_RATE⌉ = 75 := by
      rw [Int.ceil_eq_iff]
      norm_num [APP_FRAME_RATE]
    rw [h]
    rfl
  dsimp only [frameScheduleCorrect]
  refine ⟨generateMovieFrameTimes_length _,
    fun i hi => generateMovieFrameTimes_getD _ i hi, ?_, ?_, ?_, ?_⟩
  · intro h2
    constructor
    · rw [generateMovieFrameTimes_getD _ 0 (by omega)]
      simp
    · set T := (⌈movieDuration * APP_FRAME_RATE⌉).toNat with hT
      rw [generateMovieFrameTimes_getD _ (T - 1) (by omega)]
      have hcast : ((T - 1 : ℕ) : ℚ) = (T : ℚ) - 1 := by
        push_cast [Nat.cast_sub (by omega : 1 ≤ T)]
        ring
      have hne : (T : ℚ) - 1 ≠ 0 := by
        have h2q : (2 : ℚ) ≤ (T : ℚ) := by exact_mod_cast h2
        linarith
      rw [hcast, div_self hne, one_mul]
  · rw [generateMovieFrameTimes_length, h75]
  · rw [generateMovieFrameTimes_getD (5/2) 0 (by rw [h75]; norm_num)]
    simp
  · rw [generateMovieFrameTimes_getD (5/2) 74 (by rw [h75]; norm_num), h75]
    norm_num

/-- Concrete instantiation of `frame_schedule` at the spec's 2.5 s
example. -/
theorem frame_schedule_witness :
    (0 : ℚ) < 5/2 ∧ frameScheduleCorrect (5/2) :=
  ⟨by norm_num, frame_schedule (5/2) (by norm_num)⟩

/-! ## C8 — linear-mode delay -/

/-- C8: the linear-mode delay is `(lineLength − radius) / speed`, and for
an element animated with that same speed the pre-fire pulse starts exactly
at `t = 0` and its position at `t = delay` is exactly the element boundary
`x − radius`. -/
theorem linear_delay_sync (lineLength radius x visualSpeed : ℚ)
    (h : 0 < visualSpeed) :
    linearDelayContract lineLength radius x visualSpeed := by
  refine ⟨rfl, ?_, ?_⟩
  · dsimp only [pulseStartTime, linearDelay]
    ring
  · dsimp only [pulsePosition, pulseStartTime, linearDelay]
    field_simp

/-- Concrete instantiation of `linear_delay_sync` at the default geometry
(line length 200, radius 10, element at `x = 256`) and the drawing speed
200 px/s. -/
theorem linear_delay_sync_witness :
    (0 : ℚ) < 200 ∧ linearDelayContract 200 10 256 200 :=
  ⟨by norm_num, linear_delay_sync 200 10 256 200 (by norm_num)⟩

/-! ## C1 — point-mode delay computation -/

theorem getD_map_of_lt {α β : Type} (f : α → β) (l : List α) (i : ℕ)
    (hi : i < l.length) (d : β) (d0 : α) :
    (l.map f).getD i d = f (l.getD i d0) := by
  induction l generalizing i with
  | nil => simp at hi
  | cons x xs ih =>
    cases i with
    | zero => rfl
    | succ j =>
      simp only [List.map_cons, List.getD_cons_succ]
      exact ih j (Nat.lt_of_succ_lt_succ hi)

theorem getD_mem_of_lt {α : Type} (l : List α) (i : ℕ) (hi : i < l.length) (d : α) :
    l.getD i d ∈ l := by
  induction l generalizing i with
  | nil => simp at hi
  | cons x xs ih =>
    cases i with
    | zero => exact List.mem_cons_self x xs
    | succ j =>
      rw [List.getD_cons_succ]
      exact List.mem_cons_of_mem x (ih j (Nat.lt_of_succ_lt_succ hi))

theorem getD_eq_getElem_of_lt {α : Type} (l : List α) (i : ℕ) (hi : i < l.length)
    (d : α) : l.getD i d = l[i] := by
  induction l generalizing i with
  | nil => simp at hi
  | cons x xs ih =>
    cases i with
    | zero => rfl
    | succ j =>
      rw [List.getD_cons_succ]
      exact ih j (Nat.lt_of_succ_lt_succ hi)

/-- C1: the point-mode delay vector realizes the focusing law — one delay
per element, each equal to `(maxDistance − distance) / speed`, with
`delay + distance / speed` constant (`= maxDistance / speed`), a farthest
element firing at exactly 0, anti-monotonicity (nearest fires last), and
non-negativity of every delay. -/
theorem point_delays_focus (elementPositions : List ElementPosition)
    (targetX targetY visualSpeed : ℝ) (hne : elementPositions ≠ [])
    (hspeed : 0 < visualSpeed) :
    pointDelaysCorrect elementPositions targetX targetY visualSpeed := by
  dsimp only [pointDelaysCorrect, calculatePointTargetDelays]
  have hdlen : (elementPositions.map fun pos => distanceToTarget pos targetX targetY).length
      = elementPositions.length := List.length_map _ _
  set distances := elementPositions.map fun pos => distanceToTarget pos targetX targetY
    with hdistances
  set maxD := spreadMax distances with hmaxD
  have hdne : distances ≠ [] := by
    rw [hdistances]
    simpa using hne
  have hle : ∀ i : ℕ, i < elementPositions.length → distances.getD i 0 ≤ maxD := by
    intro i hi
    exact le_spreadMax_of_mem (getD_mem_of_lt distances i (by rw [hdlen]; exact hi) 0)
  have hformula : ∀ i : ℕ, i < elementPositions.length →
      (distances.map fun distance => (maxD - distance) / visualSpeed).getD i 0 =
        (maxD - distances.getD i 0) / visualSpeed := by
    intro i hi
    exact getD_map_of_lt _ distances i (by rw [hdlen]; exact hi) 0 0
  refine ⟨by rw [List.length_map, hdlen], hformula, ?_, ?_, ?_, ?_⟩
  · intro i hi
    rw [hformula i hi]
    ring
  · have hm : maxD ∈ distances := spreadMax_mem hdne
    rw [List.mem_iff_getElem] at hm
    obtain ⟨i, hilt, hig⟩ := hm
    have hi : i < elementPositions.length := by rw [← hdlen]; exact hilt
    refine ⟨i, hi, ?_, ?_⟩
    · rw [getD_eq_getElem_of_lt distances i hilt 0]
      exact hig
    · rw [hformula i hi, getD_eq_getElem_of_lt distances i hilt 0, hig]
      simp
  · intro i j hi hj hij
    rw [hformula i hi, hformula j hj]
    gcongr
  · intro i hi
    rw [hformula i hi]
    exact div_nonneg (by linarith [hle i hi]) hspeed.le

/-- Concrete instantiation of `point_delays_focus`: a one-element array at
the origin, target `(3, 4)`, speed 1. -/
theorem point_delays_focus_witness :
    ([⟨0, 0⟩] : List ElementPosition) ≠ [] ∧ (0 : ℝ) < 1 ∧
      pointDelaysCorrect [⟨0, 0⟩] 3 4 1 :=
  ⟨by simp, by norm_num, point_delays_focus [⟨0, 0⟩] 3 4 1 (by simp) (by norm_num)⟩

/-! ## C2 — interference evaluator -/

theorem waveValue_nonneg (targetX targetY currentTime visualSpeed : ℝ)
    (e : ArrayElement ℝ) :
    0 ≤ waveValue targetX targetY currentTime visualSpeed e := by
  dsimp only [waveValue]
  have h := Real.neg_one_le_sin
    (((currentTime - e.delay) - waveDistance e targetX targetY / visualSpeed)
      * 2 * Real.pi * 5)
  linarith

theorem waveValue_le_one (targetX targetY currentTime visualSpeed : ℝ)
    (e : ArrayElement ℝ) :
    waveValue targetX targetY currentTime visualSpeed e ≤ 1 := by
  dsimp only [waveValue]
  have h := Real.sin_le_one
    (((currentTime - e.delay) - waveDistance e targetX targetY / visualSpeed)
      * 2 * Real.pi * 5)
  linarith

theorem sum_nonneg_le_length {l : List ℝ} (h : ∀ x ∈ l, 0 ≤ x ∧ x ≤ 1) :
    0 ≤ l.sum ∧ l.sum ≤ (l.length : ℝ) := by
  induction l with
  | nil => simp
  | cons x xs ih =>
    have hx := h x (List.mem_cons_self x xs)
    have hxs := ih fun y hy => h y (List.mem_cons_of_mem x hy)
    rw [List.sum_cons, List.length_cons]
    push_cast
    constructor
    · linarith [hxs.1]
    · linarith [hxs.2]

open Classical in
theorem foldl_amplitudeStep (targetX targetY currentTime visualSpeed : ℝ) :
    ∀ (l : List (ArrayElement ℝ)) (a : ℝ) (c : ℕ),
      l.foldl (amplitudeStep targetX targetY currentTime visualSpeed) (a, c) =
        (a + ((contributingElements l targetX targetY currentTime visualSpeed).map
            (waveValue targetX targetY currentTime visualSpeed)).sum,
          c + (contributingElements l targetX targetY currentTime visualSpeed).length) := by
  intro l
  induction l with
  | nil =>
    intro a c
    simp [contributingElements]
  | cons e l ih =>
    intro a c
    rw [List.foldl_cons]
    by_cases hc : contributes targetX targetY currentTime visualSpeed e
    · obtain ⟨hd, ht⟩ := hc
      have hstep : amplitudeStep targetX targetY currentTime visualSpeed (a, c) e =
          (a + waveValue targetX targetY currentTime visualSpeed e, c + 1) := by
        dsimp only [amplitudeStep, waveValue]
        rw [if_neg (not_lt.mpr hd), if_pos ht]
      have hfil : contributingElements (e :: l) targetX targetY currentTime visualSpeed =
          e :: contributingElements l targetX targetY currentTime visualSpeed := by
        dsimp only [contributingElements]
        rw [List.filter_cons, if_pos (decide_eq_true ⟨hd, ht⟩)]
      rw [hstep, ih (a + waveValue targetX targetY currentTime visualSpeed e) (c + 1), hfil]
      simp only [List.map_cons, List.sum_cons, List.length_cons, Prod.mk.injEq]
      constructor
      · ring
      · omega
    · have hstep : amplitudeStep targetX targetY currentTime visualSpeed (a, c) e =
          (a, c) := by
        dsimp only [amplitudeStep]
        by_cases h1 : currentTime < e.delay
        · rw [if_pos h1]
        · rw [if_neg h1, if_neg fun ht => hc ⟨not_lt.mp h1, ht⟩]
      have hfil : contributingElements (e :: l) targetX targetY currentTime visualSpeed =
          contributingElements l targetX targetY currentTime visualSpeed := by
        dsimp only [contributingElements]
        rw [List.filter_cons, if_neg (by simpa using hc)]
      rw [hstep, ih a c, hfil]

open Classical in
/-- C2: the interference evaluator returns exactly 0 when no element
satisfies both arrival conditions (in particular before the first wave
reaches the query point), otherwise the average of the per-element values
`0.5 × sin((t − delay − distance/speed) × 2π × 5) + 0.5` over the
contributing elements; each per-element value and the result always lie in
`[0, 1]`. -/
theorem amplitude_contract (elements : List (ArrayElement ℝ))
    (targetX targetY currentTime visualSpeed : ℝ) :
    amplitudeCorrect elements targetX targetY currentTime visualSpeed := by
  have hbounds : ∀ x ∈ (contributingElements elements targetX targetY currentTime
      visualSpeed).map (waveValue targetX targetY currentTime visualSpeed),
      0 ≤ x ∧ x ≤ 1 := by
    intro x hx
    obtain ⟨e, -, rfl⟩ := List.mem_map.mp hx
    exact ⟨waveValue_nonneg _ _ _ _ e, waveValue_le_one _ _ _ _ e⟩
  have hsum := sum_nonneg_le_length hbounds
  have hr : calculateWaveAmplitudeAtTarget elements targetX targetY currentTime
      visualSpeed =
      if 0 < (contributingElements elements targetX targetY currentTime
          visualSpeed).length then
        ((contributingElements elements targetX targetY currentTime visualSpeed).map
            (waveValue targetX targetY currentTime visualSpeed)).sum /
          ((contributingElements elements targetX targetY currentTime
              visualSpeed).length : ℝ)
      else 0 := by
    dsimp only [calculateWaveAmplitudeAtTarget]
    rw [foldl_amplitudeStep]
    simp only [zero_add]
  dsimp only [amplitudeCorrect]
  rw [hr]
  refine ⟨?_, ?_,
    fun e he => ⟨waveValue_nonneg _ _ _ _ e, waveValue_le_one _ _ _ _ e⟩, ?_, ?_⟩
  · intro hnone
    have hnil : contributingElements elements targetX targetY currentTime
        visualSpeed = [] := by
      dsimp only [contributingElements]
      rw [List.filter_eq_nil_iff]
      intro e he
      simp only [decide_eq_true_eq]
      exact hnone e he
    rw [hnil]
    simp
  · rintro ⟨e, he, hce⟩
    have hmem : e ∈ contributingElements elements targetX targetY currentTime
        visualSpeed := by
      dsimp only [contributingElements]
      rw [List.mem_filter]
      exact ⟨he, decide_eq_true hce⟩
    rw [if_pos (List.length_pos_of_mem hmem)]
  · by_cases hpos : 0 < (contributingElements elements targetX targetY currentTime
        visualSpeed).length
    · rw [if_pos hpos]
      exact div_nonneg hsum.1 (Nat.cast_nonneg _)
    · rw [if_neg hpos]
  · by_cases hpos : 0 < (contributingElements elements targetX targetY currentTime
        visualSpeed).length
    · rw [if_pos hpos]
      rw [div_le_one (by exact_mod_cast hpos)]
      simpa using hsum.2
    · rw [if_neg hpos]
      norm_num

/-- Concrete instantiation of `amplitude_contract`: the empty element list
at the origin query point, `t = 0`, speed 1 (the no-contributor case, so
the amplitude is exactly 0). -/
theorem amplitude_contract_witness :
    amplitudeCorrect [] 0 0 0 1 :=
  amplitude_contract [] 0 0 0 1
